import Mathlib

/-!
Verification development for the local-file resolution subsystem of
tini-presence (src/local-files.ts).

The TypeScript source is shallowly embedded: strings are Lean `String`s
(processed through their underlying `List Char`), the filesystem is an
explicit tree / environment value, the module-level mutable caches are
explicit state records, and the one exception source
(`decodeURIComponent`) is modelled with `Except`.

All definitions are structurally recursive (loops over increasing
indices use an explicit fuel argument that provably dominates the number
of iterations), so every definition evaluates inside the kernel.
-/

namespace TiniPresence

/-- ASCII lower-case letter, by code point (a-z). -/
def isLowerAlpha (c : Char) : Bool := 97 ≤ c.toNat && c.toNat ≤ 122

/-- ASCII digit, by code point (0-9).  Models the regex class `\d`,
which in JavaScript (without the `u` flag) is exactly ASCII 0-9. -/
def isDigitCh (c : Char) : Bool := 48 ≤ c.toNat && c.toNat ≤ 57

/-- ASCII upper-case letter, by code point (A-Z). -/
def isUpperAlpha (c : Char) : Bool := 65 ≤ c.toNat && c.toNat ≤ 90

/-- Lower-case ASCII alphanumeric: the class `[a-z0-9]` of the final
cleanup regex in `normalizeString`. -/
def isLowerAlnum (c : Char) : Bool := isLowerAlpha c || isDigitCh c

/-- The JavaScript regex class `\s`: space, tab, LF, VT, FF, CR, NBSP,
and the Unicode space separators, line/paragraph separators, and BOM. -/
def isJsWhitespace (c : Char) : Bool :=
  let v := c.toNat
  v = 32 || (9 ≤ v && v ≤ 13) || v = 160 || v = 0x1680 ||
    (0x2000 ≤ v && v ≤ 0x200a) || v = 0x2028 || v = 0x2029 ||
    v = 0x202f || v = 0x205f || v = 0x3000 || v = 0xfeff

/-- JavaScript line terminators (which `.` in a regex never matches):
LF, CR, LINE SEPARATOR, PARAGRAPH SEPARATOR. -/
def isLineTerm (c : Char) : Bool :=
  c.toNat = 10 || c.toNat = 13 || c.toNat = 0x2028 || c.toNat = 0x2029

/-- ASCII-range `toLowerCase` (A-Z mapped down by 32).  The normalizer
only ever lower-cases ASCII output, so this suffices. -/
def asciiToLower (c : Char) : Char :=
  if isUpperAlpha c then Char.ofNat (c.toNat + 32) else c

/-- Merge adjacent spaces into one (the collapsing half of the regex
replacement `\s+` -> " ", applied after every whitespace character has
already been mapped to a plain space). -/
def squeeze : List Char → List Char
  | [] => []
  | [c] => [c]
  | a :: b :: r =>
    if a = ' ' && b = ' ' then squeeze (b :: r) else a :: squeeze (b :: r)

/-- Map every JavaScript-whitespace character to a plain space. -/
def wsToSpace (c : Char) : Char := if isJsWhitespace c then ' ' else c

/-- The regex replacement `replace(/\s+/g, " ")`: every maximal
whitespace run becomes a single space. -/
def collapseWs (l : List Char) : List Char := squeeze (l.map wsToSpace)

/-- Drop trailing JavaScript whitespace (the right half of
`String.prototype.trim`). -/
def trimRightWs : List Char → List Char
  | [] => []
  | c :: r =>
    match trimRightWs r with
    | [] => if isJsWhitespace c then [] else [c]
    | r2 => c :: r2

/-- Model of `String.prototype.trim`: drop whitespace from both ends. -/
def trimWs (l : List Char) : List Char :=
  trimRightWs (l.dropWhile isJsWhitespace)

/-- Transliteration table of the npm `slugify` library (its `charMap`),
restricted to the characters exercised by this repository's data; any
character outside the table is treated as unmapped, exactly as slugify
treats characters absent from its map.  Code points:
201 É->E, 233 é->e, 223 ß->ss, 321 Ł->L, 322 ł->l, 211 Ó->O, 243 ó->o,
377 Ź->Z, 378 ź->z. -/
def charMap (c : Char) : Option (List Char) :=
  if c.toNat = 201 then some ['E']
  else if c.toNat = 233 then some ['e']
  else if c.toNat = 223 then some ['s', 's']
  else if c.toNat = 321 then some ['L']
  else if c.toNat = 322 then some ['l']
  else if c.toNat = 211 then some ['O']
  else if c.toNat = 243 then some ['o']
  else if c.toNat = 377 then some ['Z']
  else if c.toNat = 378 then some ['z']
  else none

/-- slugify's `vi` locale map: 272 Đ->D, 273 đ->d. -/
def localeVi (c : Char) : Option (List Char) :=
  if c.toNat = 272 then some ['D']
  else if c.toNat = 273 then some ['d']
  else none

/-- ASCII word character: the regex class `\w` = `[A-Za-z0-9_]`. -/
def isWordCh (c : Char) : Bool :=
  isLowerAlpha c || isUpperAlpha c || isDigitCh c || c.toNat = 95

/-- The characters slugify's default `remove` regex keeps:
`[\w\s$*_+~.()'"!\-:@]`.  Code points of the symbols:
36 $, 42 *, 43 +, 126 ~, 46 ., 40 (, 41 ), 39 apostrophe, 34 quote,
33 !, 45 -, 58 :, 64 @. -/
def slugAllowed (c : Char) : Bool :=
  isWordCh c || isJsWhitespace c ||
    c.toNat = 36 || c.toNat = 42 || c.toNat = 43 || c.toNat = 126 ||
    c.toNat = 46 || c.toNat = 40 || c.toNat = 41 || c.toNat = 39 ||
    c.toNat = 34 || c.toNat = 33 || c.toNat = 45 || c.toNat = 58 ||
    c.toNat = 64

/-- One character through slugify's reduce step: locale map, then
char map, then the character itself, filtered by the `remove` regex. -/
def slugifyStep (c : Char) : List Char :=
  ((localeVi c).getD ((charMap c).getD [c])).filter slugAllowed

/-- slugify(s, \x7b replacement " ", lower true, strict false, locale vi,
trim true \x7d): per-character reduce, then trim, then `\s+` -> " ",
then lower-case. -/
def slugifyModel (l : List Char) : List Char :=
  (collapseWs (trimWs (l.flatMap slugifyStep))).map asciiToLower

/-- Opening class `(` or `[` of the qualifier-stripping regex. -/
def isOpener (c : Char) : Bool := c.toNat = 40 || c.toNat = 91

/-- Closing class `)` or `]` of the qualifier-stripping regex. -/
def isCloser (c : Char) : Bool := c.toNat = 41 || c.toNat = 93

/-- The lazy `.*?[\)\]]` part of the qualifier regex: scan for the first
closer, failing at a line terminator (which `.` cannot match) or at the
end of input.  Returns the remainder after the closer. -/
def findCloserSkip : List Char → Option (List Char)
  | [] => none
  | c :: r =>
    if isCloser c then some r
    else if isLineTerm c then none
    else findCloserSkip r

/-- Attempt the regex `\s*[\(\[].*?[\)\]]` at the head of the list:
greedily consume whitespace, require an opener, then find the first
closer.  Returns the remainder after the whole match. -/
def tryBracketMatch : List Char → Option (List Char)
  | [] => none
  | c :: r =>
    if isOpener c then findCloserSkip r
    else if isJsWhitespace c then tryBracketMatch r
    else none

/-- Global replacement `replace(/\s*[\(\[].*?[\)\]]/g, "")`: at each
position try a match; on success continue after the match, otherwise
emit the character.  Fuel starts at the input length; every step
consumes at least one character, so the fuel never runs out. -/
def stripQualGo : Nat → List Char → List Char
  | 0, l => l
  | _, [] => []
  | fuel + 1, c :: r =>
    match tryBracketMatch (c :: r) with
    | some rest => stripQualGo fuel rest
    | none => c :: stripQualGo fuel r

/-- Remove every parenthesized/bracketed span (with its leading
whitespace), as `normalizeString` does when `stripExtra` is set. -/
def stripQual (l : List Char) : List Char := stripQualGo l.length l

/-- The regex `^\d+[\s.\-_]*`: a leading ASCII-digit run plus following
separators; `stripLeadingNum` removes it (used when `stripNumbers`
is set). -/
def stripLeadingNum (l : List Char) : List Char :=
  match l with
  | [] => []
  | c :: _ =>
    if isDigitCh c then
      (l.dropWhile isDigitCh).dropWhile
        (fun d => isJsWhitespace d || d.toNat = 46 || d.toNat = 45 || d.toNat = 95)
    else l

/-- The separator class `[\/\.\-_&]` replaced by spaces before slugify:
47 /, 46 ., 45 -, 95 _, 38 &. -/
def isSep (c : Char) : Bool :=
  c.toNat = 47 || c.toNat = 46 || c.toNat = 45 || c.toNat = 95 || c.toNat = 38

/-- The final cleanup regex `[^a-z0-9]` -> " ". -/
def keepAlnum (c : Char) : Char := if isLowerAlnum c then c else ' '

/-- The last three steps of `normalizeString`:
`[^a-z0-9]` -> " ", then `\s+` -> " ", then trim. -/
def finalize (l : List Char) : List Char :=
  trimWs (collapseWs (l.map keepAlnum))

/-- Body of `normalizeString` (src/local-files.ts, lines 171-210) on the
character list: optional qualifier strip, optional leading-ordinal
strip, delete `%`, separators to spaces, slugify, final cleanup. -/
def normalizeCore (l : List Char) (stripE stripN : Bool) : List Char :=
  let s1 := if stripE then stripQual l else l
  let s2 := if stripN then stripLeadingNum s1 else s1
  let s3 := s2.filter (fun c => c.toNat != 37)
  let s4 := s3.map (fun c => if isSep c then ' ' else c)
  finalize (slugifyModel s4)

/-- The function `normalizeString(str, stripExtra, stripNumbers)`. -/
def normalizeString (s : String) (stripE stripN : Bool) : String :=
  ⟨normalizeCore s.data stripE stripN⟩

/-- JavaScript `String.prototype.includes`: `sub` occurs contiguously
inside `hay` (the empty string occurs in everything). -/
def listContains : List Char → List Char → Bool
  | hay, sub =>
    if sub.isPrefixOf hay then true
    else
      match hay with
      | [] => false
      | _ :: t => listContains t sub

/-- String version of `includes`. -/
def strIncludes (hay sub : String) : Bool := listContains hay.data sub.data

/-- The replacement `replace(/\s/g, "")`: delete every whitespace character (the
space-blind variant of a key). -/
def stripSpaces (s : String) : String :=
  ⟨s.data.filter (fun c => !isJsWhitespace c)⟩

/-- Model of `String.prototype.toLowerCase`, ASCII range (the directory paths and
extensions compared in the matcher). -/
def lowerStr (s : String) : String := ⟨s.data.map asciiToLower⟩

/-- The per-file match-and-score chain of `searchRecursiveAll`
(src/local-files.ts, lines 753-792): the first rule that fires gives the
base score; `none` means the candidate is discarded. -/
def baseScore (title artist name : String) : Option Nat :=
  let titleNorm := normalizeString title false false
  let titleNoExtra := normalizeString title true false
  let titleNoSpace := stripSpaces titleNorm
  let artistNorm := normalizeString artist false false
  let nameNorm := normalizeString name false false
  let nameNoExtra := normalizeString name true false
  let nameNoNum := normalizeString name false true
  let nameNoExtraNoNum := normalizeString name true true
  let nameNoSpace := stripSpaces nameNorm
  if nameNorm = titleNorm then some 100
  else if nameNoExtra = titleNoExtra then some 75
  else if nameNoNum = titleNorm then some 80
  else if nameNoExtraNoNum = titleNoExtra then some 70
  else if 4 ≤ titleNoExtra.length ∧
      (strIncludes nameNoExtra titleNoExtra = true ∨
        strIncludes nameNoNum titleNoExtra = true ∨
        strIncludes nameNoExtraNoNum titleNoExtra = true) then some 50
  else if 5 ≤ titleNoSpace.length ∧
      (nameNoSpace = titleNoSpace ∨
        strIncludes nameNoSpace titleNoSpace = true ∨
        strIncludes titleNoSpace nameNoSpace = true) then some 30
  else if artistNorm ≠ "" ∧ strIncludes nameNorm artistNorm = true ∧
      (strIncludes nameNorm titleNorm = true ∨
        strIncludes nameNorm titleNoExtra = true) then some 85
  else none

/-- The additive bonuses of `searchRecursiveAll` (lines 794-802):
+20 when the normalized album key occurs in the lower-cased directory
path, +5 for a lossless extension. -/
def bonusScore (album dirPath ext : String) : Nat :=
  let albumNorm := normalizeString album false false
  (if albumNorm ≠ "" ∧ strIncludes (lowerStr dirPath) albumNorm = true
    then 20 else 0) +
  (if ext = ".flac" ∨ ext = ".wav" then 5 else 0)

/-- Total score of one candidate file: base score (if any rule fired)
plus bonuses. -/
def fileScore (title artist album name ext dirPath : String) : Option Nat :=
  (baseScore title artist name).map (fun b => b + bonusScore album dirPath ext)

/-- A directory tree: file entry names (with extension) and named
subdirectories.  `readdirSync` errors and non-existent directories are
modelled as absent entries, matching the catch-all that swallows them. -/
inductive Dir where
  | node (files : List String) (subdirs : List (String × Dir))

/-- Index (from the end) of the last `.` in a name, used by the
`path.extname` model. -/
def lastDotIdx : List Char → Option Nat
  | [] => none
  | c :: r =>
    match lastDotIdx r with
    | some i => some (i + 1)
    | none => if c.toNat = 46 then some 0 else none

/-- Model of `path.extname` on a bare file name: the suffix from the last dot,
empty when there is no dot or the only dot is the leading one. -/
def extnameStr (name : String) : String :=
  match lastDotIdx name.data with
  | none => ""
  | some i => if i = 0 then "" else ⟨name.data.drop i⟩

/-- Model of `path.basename(name, ext)`: strip `ext` when it is a proper,
case-sensitively matching suffix of `name` (the caller passes the
lower-cased extension, so an upper-case extension on disk is kept). -/
def basenameStrip (name ext : String) : String :=
  if ext ≠ "" ∧ ext ≠ name ∧ ext.data.isSuffixOf name.data = true then
    ⟨name.data.take (name.data.length - ext.data.length)⟩
  else name

/-- Model of `path.join` for the scanner (it only ever appends one entry name). -/
def joinPath (dirPath name : String) : String := dirPath ++ "/" ++ name

/-- The subdirectory deny rule of the scanner: hidden entries (leading
dot) and the fixed deny list. -/
def denyDir (name : String) : Bool :=
  ['.'].isPrefixOf name.data ||
    ["node_modules", "Library", "System", "Applications"].contains name

/-- The audio extensions accepted by the folder scanner. -/
def searchExtensions : List String :=
  [".mp3", ".m4a", ".flac", ".wav", ".ogg", ".opus"]

/-- Body of `searchRecursiveAll` (lines 719-834) with the remaining
depth as fuel: a call at depth `d` in the source corresponds to fuel
`6 - d`, since the source returns immediately when `depth > 5`.
Files of the current directory are scored first, then non-hidden,
non-denied subdirectories are scanned. -/
def searchGo (title artist album : String) (exts : List String) :
    Nat → Dir → String → List (String × Nat)
  | 0, _, _ => []
  | fuel + 1, .node files subdirs, dirPath =>
    (files.filterMap (fun fname =>
      let ext := lowerStr (extnameStr fname)
      if exts.contains ext then
        (fileScore title artist album (basenameStrip fname ext) ext dirPath).map
          (fun s => (joinPath dirPath fname, s))
      else none)) ++
    ((subdirs.filter (fun nd => !(denyDir nd.1))).flatMap
      (fun nd => searchGo title artist album exts fuel nd.2 (joinPath dirPath nd.1)))

/-- The function `searchRecursiveAll(dir, title, artist, album, extensions, matchArray,
depth)`: returns the matches contributed by this call (the source
appends them to a shared array). -/
def searchRecursiveAll (title artist album : String) (exts : List String)
    (d : Dir) (dirPath : String) (depth : Nat) : List (String × Nat) :=
  searchGo title artist album exts (6 - depth) d dirPath

/-- Truncate a directory tree below `k` levels of subdirectories. -/
def Dir.prune : Nat → Dir → Dir
  | 0, .node files _ => .node files []
  | k + 1, .node files subdirs =>
    .node files (subdirs.map (fun nd => (nd.1, Dir.prune k nd.2)))

/-- ASCII alphanumeric (`[A-Za-z0-9]`, the class slugify's strict mode
keeps). -/
def isAsciiAlnum (c : Char) : Bool :=
  isLowerAlpha c || isUpperAlpha c || isDigitCh c

/-- One character through slugify with `strict: true`, `replacement ""`,
`lower: true` (as `normalizeForMatch` calls it per character): the
transliterated characters, restricted to alphanumerics, lower-cased.
slugify has no `en` locale table, so only the char map applies. -/
def slugifyCharStrict (c : Char) : List Char :=
  (((charMap c).getD [c]).filter isAsciiAlnum).map asciiToLower

/-- Model of the regex test `/[\p{L}\p{N}]/u`: ASCII alphanumerics
exactly; characters beyond ASCII are approximated as letter-or-number
(the full Unicode category tables are outside this embedding, and no
claim depends on them). -/
def isUnicodeAlnum (c : Char) : Bool := isAsciiAlnum c || 128 ≤ c.toNat

/-- Character loop of `normalizeForMatch` (lines 132-159): keep the
slugified form when non-empty, else keep the character itself when it is
a letter/number, else drop it. -/
def nfmGo : List Char → List Char
  | [] => []
  | c :: r =>
    (match slugifyCharStrict c with
      | [] => if isUnicodeAlnum c then [c] else []
      | t => t) ++ nfmGo r

/-- The function `normalizeForMatch(str)`: per-character slugify over the lower-cased
input. -/
def normalizeForMatch (s : String) : String :=
  ⟨nfmGo (s.data.map asciiToLower)⟩

/-- The helper `stripExtra(str)` (lines 545-550): drop bracketed spans and a
leading track number, then trim. -/
def stripExtra (s : String) : String :=
  ⟨trimWs (stripLeadingNum (stripQual s.data))⟩

/-- Global replacement `replace(/and/g, "")`. -/
def removeAnd : List Char → List Char
  | 'a' :: 'n' :: 'd' :: r => removeAnd r
  | c :: r => c :: removeAnd r
  | [] => []

/-- Model of `[...new Set(variants)]`: deduplicate keeping first occurrences. -/
def dedupFirst : List String → List String → List String
  | [], _ => []
  | x :: r, seen =>
    if seen.contains x then dedupFirst r seen else x :: dedupFirst r (x :: seen)

/-- The function `getNormalizedVariants(str)` (lines 556-580). -/
def getNormalizedVariants (s : String) : List String :=
  let norm := normalizeForMatch s
  let v1 := [norm]
  let noAnd : String := ⟨removeAnd norm.data⟩
  let v2 := if noAnd ≠ norm ∧ 3 ≤ noAnd.length then v1 ++ [noAnd] else v1
  let stripped := normalizeForMatch (stripExtra s)
  let v3 :=
    if stripped ≠ norm then
      let strippedNoAnd : String := ⟨removeAnd stripped.data⟩
      if strippedNoAnd ≠ stripped ∧ 3 ≤ strippedNoAnd.length then
        (v2 ++ [stripped]) ++ [strippedNoAnd]
      else v2 ++ [stripped]
    else v2
  dedupFirst v3 []

/-- Suffix of a path after its last `/` (`path.basename` without
extension stripping). -/
def afterLastSlash (l : List Char) : List Char :=
  (l.reverse.takeWhile (fun c => c.toNat != 47)).reverse

/-- Score of one (title-variant, file-variant) pair in
`findFileFromSpotifyDb` (lines 607-625); 0 means the pair fired no
rule. -/
def dbPairScore (tv fv : String) : Nat :=
  if fv = tv then 100
  else if 3 ≤ tv.length ∧ 3 ≤ fv.length then
    if strIncludes fv tv then 85
    else if strIncludes tv fv then 80
    else 0
  else 0

/-- Stable descending insertion by score: models the stable
`matches.sort((a, b) => b.score - a.score)`. -/
def insertByScoreDesc (m : String × Nat) : List (String × Nat) → List (String × Nat)
  | [] => [m]
  | x :: r => if x.2 > m.2 then x :: insertByScoreDesc m r else m :: x :: r

/-- Stable sort, highest score first, ties in discovery order. -/
def sortByScoreDesc : List (String × Nat) → List (String × Nat)
  | [] => []
  | x :: r => insertByScoreDesc x (sortByScoreDesc r)

/-- Sort descending and take the first match, as the source does after
collecting candidates. -/
def bestMatch (l : List (String × Nat)) : Option String :=
  ((sortByScoreDesc l).head?).map Prod.fst

/-- The function `findFileFromSpotifyDb(title, artist, album)` over the extracted
path list (lines 586-661). -/
def findFileFromSpotifyDb (files : List String) (title artist album : String) :
    Option String :=
  let titleVariants := getNormalizedVariants title
  let artistNorm := if artist ≠ "" then normalizeForMatch artist else ""
  let found := files.filterMap (fun filePath =>
    let bn : String := ⟨afterLastSlash filePath.data⟩
    let extF := extnameStr bn
    let fileName := basenameStrip bn extF
    let fileVariants := getNormalizedVariants fileName
    let s1 := titleVariants.foldl
      (fun acc tv => fileVariants.foldl
        (fun acc2 fv => max acc2 (dbPairScore tv fv)) acc) 0
    let fileNorm := fileVariants.headD ""
    let s2 :=
      if 0 < s1 then s1
      else if artistNorm ≠ "" ∧ strIncludes fileNorm artistNorm = true ∧
          titleVariants.any (fun tv => strIncludes fileNorm tv) then 90
      else 0
    if 0 < s2 then
      let withArtist :=
        if artistNorm ≠ "" ∧ strIncludes fileNorm artistNorm = true then s2 + 20
        else s2
      let extLower := lowerStr extF
      some (filePath,
        if extLower = ".flac" ∨ extLower = ".wav" then withArtist + 5
        else withArtist)
    else none)
  bestMatch found

/-- Hexadecimal digit for percent-escapes. -/
def isHexDigit (c : Char) : Bool :=
  isDigitCh c || (65 ≤ c.toNat && c.toNat ≤ 70) || (97 ≤ c.toNat && c.toNat ≤ 102)

/-- Value of a hexadecimal digit. -/
def hexVal (c : Char) : Nat :=
  if isDigitCh c then c.toNat - 48
  else if c.toNat ≤ 70 then c.toNat - 55
  else c.toNat - 87

/-- A token of a percent-encoded string: a literal character or one
escaped byte. -/
inductive PctTok where
  | lit (c : Char)
  | byte (b : Nat)

/-- Tokenize a percent-encoded string; fails (as `decodeURIComponent`
throws) when a `%` is not followed by two hex digits. -/
def pctTokens : List Char → Option (List PctTok)
  | [] => some []
  | '%' :: a :: b :: r =>
    if isHexDigit a && isHexDigit b then
      (pctTokens r).map (fun t => .byte (hexVal a * 16 + hexVal b) :: t)
    else none
  | '%' :: _ => none
  | c :: r => (pctTokens r).map (fun t => .lit c :: t)

/-- UTF-8 continuation byte. -/
def isContB (b : Nat) : Bool := 128 ≤ b && b ≤ 191

/-- Decode the token stream: escaped byte sequences must form valid
UTF-8 (no overlong forms, no surrogates, max U+10FFFF), per the
ECMAScript `Decode` algorithm; otherwise the whole decode fails. -/
def decodeTokens : List PctTok → Option (List Char)
  | [] => some []
  | .lit c :: r => (decodeTokens r).map (fun t => c :: t)
  | .byte b :: r =>
    if b < 128 then (decodeTokens r).map (fun t => Char.ofNat b :: t)
    else if 194 ≤ b ∧ b ≤ 223 then
      match r with
      | .byte b2 :: r2 =>
        if isContB b2 then
          (decodeTokens r2).map (fun t => Char.ofNat ((b - 192) * 64 + (b2 - 128)) :: t)
        else none
      | _ => none
    else if 224 ≤ b ∧ b ≤ 239 then
      match r with
      | .byte b2 :: .byte b3 :: r3 =>
        if isContB b2 && isContB b3 then
          let cp := (b - 224) * 4096 + (b2 - 128) * 64 + (b3 - 128)
          if 2048 ≤ cp ∧ ¬(55296 ≤ cp ∧ cp ≤ 57343) then
            (decodeTokens r3).map (fun t => Char.ofNat cp :: t)
          else none
        else none
      | _ => none
    else if 240 ≤ b ∧ b ≤ 244 then
      match r with
      | .byte b2 :: .byte b3 :: .byte b4 :: r4 =>
        if isContB b2 && isContB b3 && isContB b4 then
          let cp := (b - 240) * 262144 + (b2 - 128) * 4096 + (b3 - 128) * 64 + (b4 - 128)
          if 65536 ≤ cp ∧ cp ≤ 1114111 then
            (decodeTokens r4).map (fun t => Char.ofNat cp :: t)
          else none
        else none
      | _ => none
    else none

/-- Model of `decodeURIComponent`, with the URIError it can throw modelled as
`none`. -/
def decodeURIComponentModel (l : List Char) : Option (List Char) :=
  (pctTokens l).bind decodeTokens

/-- Form-decoding of one locator field: `+` to space, then
`decodeURIComponent`. -/
def formDecode (s : String) : Option String :=
  (decodeURIComponentModel (s.data.map (fun c => if c = '+' then ' ' else c))).map
    (fun l => ⟨l⟩)

/-- JavaScript `split(":")` on a character list (empty fields kept;
the empty string splits to one empty field). -/
def splitOnColonAux : List Char → List Char → List (List Char)
  | [], cur => [cur.reverse]
  | c :: r, cur =>
    if c = ':' then cur.reverse :: splitOnColonAux r []
    else splitOnColonAux r (c :: cur)

/-- JavaScript `split(":")` on a string, returning strings. -/
def splitOnColon (l : List Char) : List String :=
  (splitOnColonAux l []).map (fun p => ⟨p⟩)

/-- The decoded descriptor of a local track. -/
structure TrackInfo where
  artist : String
  album : String
  title : String
deriving DecidableEq

deriving instance DecidableEq for Except

/-- The function `parseLocalTrackInfo(trackId)` (lines 665-684).  `Except.error ()`
is the URIError that `decodeURIComponent` raises on a malformed escape;
`Except.ok none` is the `null` result. -/
def parseLocalTrackInfo (trackId : String) : Except Unit (Option TrackInfo) :=
  if "spotify:local:".data.isPrefixOf trackId.data then
    match splitOnColon (trackId.data.drop 14) with
    | p0 :: p1 :: p2 :: _ =>
      match formDecode p0, formDecode p1, formDecode p2 with
      | some a, some al, some t => .ok (some ⟨a, al, t⟩)
      | _, _, _ => .error ()
    | _ => .ok none
  else .ok none

/-- Environment of one resolution attempt: the snapshot of extracted
Spotify-database paths and the configured music folders with their
trees. -/
structure ResolveEnv where
  dbPaths : List String
  folders : List (String × Dir)

/-- The function `findLocalFile(trackId)` (lines 691-717): parse, try the database
matcher, then the recursive folder scan; the only uncaught exception
source is the parser's `decodeURIComponent`. -/
def findLocalFile (env : ResolveEnv) (trackId : String) :
    Except Unit (Option String) :=
  match parseLocalTrackInfo trackId with
  | .error e => .error e
  | .ok none => .ok none
  | .ok (some info) =>
    match findFileFromSpotifyDb env.dbPaths info.title info.artist info.album with
    | some p => .ok (some p)
    | none =>
      let found := env.folders.flatMap (fun fd =>
        searchRecursiveAll info.title info.artist info.album
          searchExtensions fd.2 fd.1 0)
      .ok (bestMatch found)

/-- The audio extensions the binary-index reader recognizes when
scanning raw bytes (lines 481). -/
def audioExtensions : List String :=
  [".mp3", ".m4a", ".flac", ".wav", ".ogg", ".opus", ".aac", ".wma"]

/-- Model of `buffer.indexOf(pattern, i)`: first index at or after `i` where
`pat` occurs; the buffer is modelled at character granularity. -/
def indexOfAux (pat : List Char) : List Char → Nat → Option Nat
  | [], i => if pat.isEmpty then some i else none
  | c :: t, i =>
    if pat.isPrefixOf (c :: t) then some i else indexOfAux pat t (i + 1)

/-- Model of `buffer.indexOf(pat, i)` on the whole buffer. -/
def indexOfFrom (buf pat : List Char) (i : Nat) : Option Nat :=
  indexOfAux pat (buf.drop i) i

/-- The 5-character lower-cased slice check at position `j`: the length
of the first recognized audio extension the slice starts with
(lines 507-513). -/
def extAt (buf : List Char) (j : Nat) : Option Nat :=
  let slice := ((buf.drop j).take 5).map asciiToLower
  (audioExtensions.find? (fun e => e.data.isPrefixOf slice)).map
    (fun e => e.data.length)

/-- The inner scan of lines 505-515: try positions `j`, `j+1`, ... for
at most `budget` steps (the source bounds the scan window to 300 bytes);
returns `j + extLength` for the first hit. -/
def findPathEndGo (buf : List Char) : Nat → Nat → Option Nat
  | 0, _ => none
  | budget + 1, j =>
    match extAt buf j with
    | some k => some (j + k)
    | none => findPathEndGo buf budget (j + 1)

/-- Find the end of a path starting at `idx`: scan the window
`[idx, min(idx + 300, length))`. -/
def findPathEnd (buf : List Char) (idx : Nat) : Option Nat :=
  findPathEndGo buf (min (idx + 300) buf.length - idx) idx

/-- The byte pattern `/Users/` that starts every recorded path. -/
def usersPattern : List Char := "/Users/".data

/-- The extraction loop of `getSpotifyLocalFilePaths` (lines 499-526)
over one buffer: from position `i`, find the next `/Users/`, complete it
to an audio extension, and record the path when it exists on disk
(`ex`) and is not already recorded.  The scan index strictly increases
every step, so fuel `length + 1` dominates the iteration count. -/
def extractGo (ex : String → Bool) (buf : List Char) :
    Nat → Nat → List String → List String
  | 0, _, acc => acc
  | fuel + 1, i, acc =>
    if i < buf.length - 20 then
      match indexOfFrom buf usersPattern i with
      | none => acc
      | some idx =>
        match findPathEnd buf idx with
        | some pend =>
          let p : String := ⟨(buf.drop idx).take (pend - idx)⟩
          extractGo ex buf fuel pend
            (if ex p && !(acc.contains p) then acc ++ [p] else acc)
        | none => extractGo ex buf fuel (idx + 1) acc
    else acc

/-- Extraction from one `local-files.bnk` buffer, starting from the
accumulator shared across user directories. -/
def extractFromBuffer (ex : String → Bool) (buf : List Char)
    (acc : List String) : List String :=
  extractGo ex buf (buf.length + 1) 0 acc

/-- The full scan of lines 475-532: every readable `local-files.bnk`
buffer in turn, one shared path accumulator.  Unreadable or missing
index files contribute no buffer. -/
def scanSpotifyBnk (ex : String → Bool) (bufs : List (List Char)) :
    List String :=
  bufs.foldl (fun acc buf => extractFromBuffer ex buf acc) []

/-- Environment of the binary-index reader: the combined mtime of the
index files (`getBnkMtime`), their readable contents, and the on-disk
existence check. -/
structure BnkEnv where
  mtime : Nat
  bufs : List (List Char)
  onDisk : String → Bool

/-- The module-level mutable state: `spotifyFilePathsCache` and
`lastBnkMtime`. -/
structure CacheSt where
  cache : Option (List String)
  lastMtime : Nat

/-- The method `clearCaches()` (lines 227-234): drop the cached collection. -/
def clearCaches (st : CacheSt) : CacheSt := ⟨none, st.lastMtime⟩

/-- The scan a given environment produces. -/
def scanOf (env : BnkEnv) : List String := scanSpotifyBnk env.onDisk env.bufs

/-- The function `getSpotifyLocalFilePaths()` (lines 459-535): lazily compare the
mtime (invalidating on mismatch), return the cached collection when
valid, otherwise re-scan and repopulate.  Returns the collection and the
new state. -/
def getSpotifyLocalFilePaths (env : BnkEnv) (st : CacheSt) :
    List String × CacheSt :=
  let st1 := if env.mtime ≠ st.lastMtime then (⟨none, env.mtime⟩ : CacheSt) else st
  match st1.cache with
  | some c => (c, st1)
  | none => (scanOf env, ⟨some (scanOf env), st1.lastMtime⟩)

/-! ### Shape of normalizer output -/

/-- No two adjacent spaces. -/
def noDoubleSpace : List Char → Bool
  | a :: b :: r => !(a = ' ' && b = ' ') && noDoubleSpace (b :: r)
  | _ => true

/-- The head, if any, is not whitespace. -/
def headOkB : List Char → Bool
  | [] => true
  | c :: _ => !isJsWhitespace c

/-- The last element, if any, is not whitespace. -/
def lastOkB : List Char → Bool
  | [] => true
  | [c] => !isJsWhitespace c
  | _ :: c :: r => lastOkB (c :: r)

/-- Characters the normalizer can output: lower-case alphanumerics and
the space. -/
def isCanonChar (c : Char) : Bool := isLowerAlnum c || c = ' '

/-- A list in the image of the normalizer: canonical characters, no
double spaces, trimmed at both ends. -/
def Canonical (l : List Char) : Prop :=
  (∀ c ∈ l, isCanonChar c = true) ∧ noDoubleSpace l = true ∧
    headOkB l = true ∧ lastOkB l = true

theorem mem_of_mem_squeeze {l : List Char} {c : Char} (h : c ∈ squeeze l) :
    c ∈ l := by
  induction l using squeeze.induct with
  | case1 => simpa [squeeze] using h
  | case2 d => simpa [squeeze] using h
  | case3 a b r hab ih =>
    rw [squeeze, if_pos hab] at h
    exact List.mem_cons_of_mem _ (ih h)
  | case4 a b r hab ih =>
    rw [squeeze, if_neg hab] at h
    rcases List.mem_cons.mp h with h1 | h2
    · exact List.mem_cons.mpr (Or.inl h1)
    · exact List.mem_cons_of_mem _ (ih h2)

theorem squeeze_cons (b : Char) (r : List Char) :
    ∃ t, squeeze (b :: r) = b :: t := by
  induction r generalizing b with
  | nil => exact ⟨[], rfl⟩
  | cons c r ih =>
    rw [squeeze]
    by_cases h : (decide (b = ' ') && decide (c = ' ')) = true
    · rw [if_pos h]
      obtain ⟨hb, hc⟩ := Bool.and_eq_true_iff.mp h
      obtain ⟨t, ht⟩ := ih c
      refine ⟨t, ?_⟩
      rw [ht, of_decide_eq_true hb, of_decide_eq_true hc]
    · rw [if_neg h]
      exact ⟨squeeze (c :: r), rfl⟩

theorem noDS_squeeze (l : List Char) : noDoubleSpace (squeeze l) = true := by
  induction l using squeeze.induct with
  | case1 => rfl
  | case2 d => rfl
  | case3 a b r hab ih => rw [squeeze, if_pos hab]; exact ih
  | case4 a b r hab ih =>
    rw [squeeze, if_neg hab]
    obtain ⟨t, ht⟩ := squeeze_cons b r
    rw [ht]
    rw [ht] at ih
    show (!(a = ' ' && b = ' ') && noDoubleSpace (b :: t)) = true
    cases hx : (decide (a = ' ') && decide (b = ' ')) with
    | true => exact absurd hx hab
    | false => simpa [hx] using ih

theorem squeeze_eq_self {l : List Char} (h : noDoubleSpace l = true) :
    squeeze l = l := by
  induction l using squeeze.induct with
  | case1 => rfl
  | case2 d => rfl
  | case3 a b r hab ih =>
    exfalso
    rw [noDoubleSpace, Bool.and_eq_true, Bool.not_eq_true'] at h
    rw [h.1] at hab
    exact Bool.false_ne_true hab
  | case4 a b r hab ih =>
    rw [noDoubleSpace, Bool.and_eq_true] at h
    rw [squeeze, if_neg hab, ih h.2]

theorem noDS_tail {c : Char} {r : List Char} (h : noDoubleSpace (c :: r) = true) :
    noDoubleSpace r = true := by
  cases r with
  | nil => rfl
  | cons d t =>
    rw [noDoubleSpace, Bool.and_eq_true] at h
    exact h.2

theorem map_id_on {f : Char → Char} {l : List Char}
    (h : ∀ c ∈ l, f c = c) : l.map f = l := by
  induction l with
  | nil => rfl
  | cons c r ih =>
    rw [List.map_cons, h c (List.mem_cons_self c r),
      ih (fun d hd => h d (List.mem_cons_of_mem c hd))]

theorem flatMap_id_on {f : Char → List Char} {l : List Char}
    (h : ∀ c ∈ l, f c = [c]) : l.flatMap f = l := by
  induction l with
  | nil => rfl
  | cons c r ih =>
    rw [List.flatMap_cons, h c (List.mem_cons_self c r),
      ih (fun d hd => h d (List.mem_cons_of_mem c hd))]
    rfl

theorem filter_id_on {p : Char → Bool} {l : List Char}
    (h : ∀ c ∈ l, p c = true) : l.filter p = l := by
  induction l with
  | nil => rfl
  | cons c r ih =>
    rw [List.filter_cons, if_pos (h c (List.mem_cons_self c r)),
      ih (fun d hd => h d (List.mem_cons_of_mem c hd))]

theorem trimRight_cons_struct (c : Char) (r : List Char) :
    trimRightWs (c :: r) = [] ∨ ∃ t, trimRightWs (c :: r) = c :: t := by
  rw [trimRightWs]
  cases h : trimRightWs r with
  | nil =>
    by_cases hw : isJsWhitespace c = true
    · left; simp [hw]
    · right; exact ⟨[], by simp [Bool.not_eq_true] at hw; simp [hw]⟩
  | cons x t => right; exact ⟨x :: t, rfl⟩

theorem mem_of_mem_trimRight {l : List Char} {c : Char}
    (h : c ∈ trimRightWs l) : c ∈ l := by
  induction l with
  | nil => simpa [trimRightWs] using h
  | cons d r ih =>
    rw [trimRightWs] at h
    cases he : trimRightWs r with
    | nil =>
      rw [he] at h
      by_cases hw : isJsWhitespace d = true
      · simp [hw] at h
      · simp [Bool.not_eq_true] at hw
        simp [hw] at h
        simp [h]
    | cons x t =>
      rw [he] at h
      rcases List.mem_cons.mp h with h1 | h2
      · simp [h1]
      · exact List.mem_cons_of_mem _ (ih (by rw [he]; exact h2))

theorem noDS_dropWhile {l : List Char} {p : Char → Bool}
    (h : noDoubleSpace l = true) :
    noDoubleSpace (l.dropWhile p) = true := by
  induction l with
  | nil => rfl
  | cons c r ih =>
    rw [List.dropWhile_cons]
    by_cases hp : p c = true
    · simp only [hp, if_true]
      exact ih (noDS_tail h)
    · simp only [Bool.not_eq_true] at hp
      simp only [hp, Bool.false_eq_true, if_false]
      exact h

theorem noDS_trimRight {l : List Char} (h : noDoubleSpace l = true) :
    noDoubleSpace (trimRightWs l) = true := by
  induction l with
  | nil => rfl
  | cons c r ih =>
    rw [trimRightWs]
    cases he : trimRightWs r with
    | nil =>
      by_cases hw : isJsWhitespace c = true
      · simp only [hw, if_true]; rfl
      · simp only [Bool.not_eq_true] at hw
        simp only [hw, Bool.false_eq_true, if_false]
        rfl
    | cons x t =>
      have hr : noDoubleSpace (trimRightWs r) = true := ih (noDS_tail h)
      rw [he] at hr
      cases r with
      | nil => simp [trimRightWs] at he
      | cons d rr =>
        rcases trimRight_cons_struct d rr with h0 | ⟨t2, ht2⟩
        · rw [h0] at he; exact absurd he (by simp)
        · rw [ht2] at he
          injection he with he1 he2
          subst he1
          rw [noDoubleSpace, Bool.and_eq_true] at h ⊢
          exact ⟨h.1, hr⟩

theorem lastOk_trimRight (l : List Char) : lastOkB (trimRightWs l) = true := by
  induction l with
  | nil => rfl
  | cons c r ih =>
    rw [trimRightWs]
    cases he : trimRightWs r with
    | nil =>
      by_cases hw : isJsWhitespace c = true
      · simp only [hw, if_true]; rfl
      · simp only [Bool.not_eq_true] at hw
        simp only [hw, Bool.false_eq_true, if_false]
        show (!isJsWhitespace c) = true
        simp [hw]
    | cons x t =>
      rw [he] at ih
      show lastOkB (c :: x :: t) = true
      rw [lastOkB]
      exact ih

theorem trimRight_eq_self {l : List Char} (h : lastOkB l = true) :
    trimRightWs l = l := by
  induction l with
  | nil => rfl
  | cons c r ih =>
    cases r with
    | nil =>
      rw [lastOkB, Bool.not_eq_true'] at h
      rw [trimRightWs]
      simp [trimRightWs, h]
    | cons x rr =>
      rw [lastOkB] at h
      rw [trimRightWs, ih h]

theorem headOk_dropWhile (l : List Char) :
    headOkB (l.dropWhile isJsWhitespace) = true := by
  induction l with
  | nil => rfl
  | cons c r ih =>
    rw [List.dropWhile_cons]
    by_cases hw : isJsWhitespace c = true
    · simp only [hw, if_true]; exact ih
    · simp only [Bool.not_eq_true] at hw
      simp only [hw, Bool.false_eq_true, if_false]
      show (!isJsWhitespace c) = true
      simp [hw]

theorem headOk_trimRight {l : List Char} (h : headOkB l = true) :
    headOkB (trimRightWs l) = true := by
  cases l with
  | nil => rfl
  | cons c r =>
    rcases trimRight_cons_struct c r with h0 | ⟨t, ht⟩
    · rw [h0]; rfl
    · rw [ht]; exact h

theorem dropWhile_eq_self_of_headOk {l : List Char} (h : headOkB l = true) :
    l.dropWhile isJsWhitespace = l := by
  cases l with
  | nil => rfl
  | cons c r =>
    rw [headOkB, Bool.not_eq_true'] at h
    rw [List.dropWhile_cons]
    simp [h]

theorem mem_of_mem_dropWhile {l : List Char} {c : Char}
    (h : c ∈ l.dropWhile isJsWhitespace) : c ∈ l := by
  induction l with
  | nil => simpa using h
  | cons d r ih =>
    rw [List.dropWhile_cons] at h
    by_cases hw : isJsWhitespace d = true
    · simp only [hw, if_true] at h
      exact List.mem_cons_of_mem _ (ih h)
    · simp only [Bool.not_eq_true] at hw
      simp only [hw, Bool.false_eq_true, if_false] at h
      exact h

/-! ### Character-class facts -/

theorem canon_val {c : Char} (h : isCanonChar c = true) :
    (97 ≤ c.toNat ∧ c.toNat ≤ 122) ∨ (48 ≤ c.toNat ∧ c.toNat ≤ 57) ∨
      c.toNat = 32 := by
  rcases Bool.or_eq_true_iff.mp h with h1 | h2
  · rcases Bool.or_eq_true_iff.mp h1 with ha | hd
    · simp only [isLowerAlpha, Bool.and_eq_true, decide_eq_true_eq] at ha
      exact Or.inl ha
    · simp only [isDigitCh, Bool.and_eq_true, decide_eq_true_eq] at hd
      exact Or.inr (Or.inl hd)
  · have : c = ' ' := of_decide_eq_true h2
    subst this
    exact Or.inr (Or.inr rfl)

theorem canon_not_ws_or_space {c : Char} (h : isCanonChar c = true) :
    isJsWhitespace c = false ∨ c = ' ' := by
  rcases canon_val h with h1 | h2 | h3
  · left
    simp only [isJsWhitespace, Bool.or_eq_true, Bool.and_eq_true,
      decide_eq_true_eq, Bool.or_eq_false_iff, Bool.and_eq_false_iff,
      decide_eq_false_iff_not]
    omega
  · left
    simp only [isJsWhitespace, Bool.or_eq_true, Bool.and_eq_true,
      decide_eq_true_eq, Bool.or_eq_false_iff, Bool.and_eq_false_iff,
      decide_eq_false_iff_not]
    omega
  · right
    have h4 := Char.ofNat_toNat c
    rw [h3] at h4
    exact h4.symm

theorem alnum_not_ws {c : Char} (h : isLowerAlnum c = true) :
    isJsWhitespace c = false := by
  have hc : isCanonChar c = true := by
    simp [isCanonChar, h]
  rcases canon_not_ws_or_space hc with h1 | h2
  · exact h1
  · subst h2
    simp [isLowerAlnum, isLowerAlpha, isDigitCh] at h

theorem canon_not_pct {c : Char} (h : isCanonChar c = true) :
    (c.toNat != 37) = true := by
  rcases canon_val h with h1 | h2 | h3 <;> simp <;> omega

theorem canon_sep_false {c : Char} (h : isCanonChar c = true) :
    isSep c = false := by
  rcases canon_val h with h1 | h2 | h3 <;>
    · simp only [isSep, Bool.or_eq_false_iff, decide_eq_false_iff_not]
      omega

theorem charMap_none_of_small {c : Char} (h : c.toNat < 128) :
    charMap c = none := by
  unfold charMap
  split_ifs with h1 h2 h3 h4 h5 h6 h7 h8 h9 <;> first | rfl | omega

theorem localeVi_none_of_small {c : Char} (h : c.toNat < 128) :
    localeVi c = none := by
  unfold localeVi
  split_ifs with h1 h2 <;> first | rfl | omega

theorem canon_slugAllowed {c : Char} (h : isCanonChar c = true) :
    slugAllowed c = true := by
  rcases Bool.or_eq_true_iff.mp h with h1 | h2
  · simp [slugAllowed, isWordCh, h1]
    rcases Bool.or_eq_true_iff.mp h1 with ha | hd
    · simp [ha]
    · simp [hd]
  · have : c = ' ' := of_decide_eq_true h2
    subst this
    decide

theorem canon_slugifyStep {c : Char} (h : isCanonChar c = true) :
    slugifyStep c = [c] := by
  have hs : c.toNat < 128 := by rcases canon_val h with h1 | h2 | h3 <;> omega
  rw [slugifyStep, localeVi_none_of_small hs, charMap_none_of_small hs]
  simp only [Option.getD_none]
  rw [List.filter_cons, if_pos (canon_slugAllowed h)]
  rfl

theorem canon_lower_id {c : Char} (h : isCanonChar c = true) :
    asciiToLower c = c := by
  have hu : isUpperAlpha c = false := by
    simp only [isUpperAlpha, Bool.and_eq_false_iff, decide_eq_false_iff_not]
    rcases canon_val h with h1 | h2 | h3 <;> omega
  simp [asciiToLower, hu]

theorem canon_keepAlnum_id {c : Char} (h : isCanonChar c = true) :
    keepAlnum c = c := by
  rcases Bool.or_eq_true_iff.mp h with h1 | h2
  · simp [keepAlnum, h1]
  · have : c = ' ' := of_decide_eq_true h2
    subst this
    rfl

theorem canon_wsToSpace_id {c : Char} (h : isCanonChar c = true) :
    wsToSpace c = c := by
  rcases canon_not_ws_or_space h with h1 | h2
  · simp [wsToSpace, h1]
  · subst h2; rfl

theorem keepAlnum_canon (c : Char) : isCanonChar (keepAlnum c) = true := by
  by_cases h : isLowerAlnum c = true
  · simp [keepAlnum, h, isCanonChar]
  · simp only [Bool.not_eq_true] at h
    simp [keepAlnum, h, isCanonChar]

theorem canon_wsToSpace (c : Char) (h : isCanonChar c = true) :
    isCanonChar (wsToSpace c) = true := by
  rw [canon_wsToSpace_id h]
  exact h

/-! ### Canonicality of the normalizer output -/

theorem finalize_chars {l : List Char} {c : Char} (h : c ∈ finalize l) :
    isCanonChar c = true := by
  have h1 : c ∈ collapseWs (l.map keepAlnum) :=
    mem_of_mem_dropWhile (mem_of_mem_trimRight h)
  have h2 : c ∈ (l.map keepAlnum).map wsToSpace := mem_of_mem_squeeze h1
  rcases List.mem_map.mp h2 with ⟨d, hd, hdc⟩
  rcases List.mem_map.mp hd with ⟨a, _, hak⟩
  subst hdc
  subst hak
  exact canon_wsToSpace _ (keepAlnum_canon a)

theorem finalize_noDS (l : List Char) :
    noDoubleSpace (finalize l) = true :=
  noDS_trimRight (noDS_dropWhile (noDS_squeeze _))

theorem finalize_headOk (l : List Char) : headOkB (finalize l) = true :=
  headOk_trimRight (headOk_dropWhile _)

theorem finalize_lastOk (l : List Char) : lastOkB (finalize l) = true :=
  lastOk_trimRight _

theorem finalize_canonical (l : List Char) : Canonical (finalize l) :=
  ⟨fun _ hc => finalize_chars hc, finalize_noDS l, finalize_headOk l,
    finalize_lastOk l⟩

theorem normalizeCore_canonical (l : List Char) (e n : Bool) :
    Canonical (normalizeCore l e n) :=
  finalize_canonical _

/-! ### The normalizer fixes canonical lists -/

theorem trimWs_eq_self {l : List Char} (hh : headOkB l = true)
    (hl : lastOkB l = true) : trimWs l = l := by
  rw [trimWs, dropWhile_eq_self_of_headOk hh, trimRight_eq_self hl]

theorem collapseWs_eq_self {l : List Char}
    (hc : ∀ c ∈ l, isCanonChar c = true) (hd : noDoubleSpace l = true) :
    collapseWs l = l := by
  rw [collapseWs, map_id_on (fun c h => canon_wsToSpace_id (hc c h)),
    squeeze_eq_self hd]

theorem slugifyModel_eq_self {l : List Char} (h : Canonical l) :
    slugifyModel l = l := by
  obtain ⟨hc, hd, hh, hl⟩ := h
  rw [slugifyModel, flatMap_id_on (fun c hm => canon_slugifyStep (hc c hm)),
    trimWs_eq_self hh hl, collapseWs_eq_self hc hd,
    map_id_on (fun c hm => canon_lower_id (hc c hm))]

theorem finalize_eq_self {l : List Char} (h : Canonical l) :
    finalize l = l := by
  obtain ⟨hc, hd, hh, hl⟩ := h
  rw [finalize, map_id_on (fun c hm => canon_keepAlnum_id (hc c hm)),
    collapseWs_eq_self hc hd, trimWs_eq_self hh hl]

theorem canonical_fixed {l : List Char} (h : Canonical l) :
    normalizeCore l false false = l := by
  obtain ⟨hc, hd, hh, hl⟩ := h
  show finalize (slugifyModel
    ((l.filter (fun c => c.toNat != 37)).map (fun c => if isSep c then ' ' else c))) = l
  rw [filter_id_on (fun c hm => canon_not_pct (hc c hm))]
  rw [map_id_on (fun c hm => by simp [canon_sep_false (hc c hm)])]
  rw [slugifyModel_eq_self ⟨hc, hd, hh, hl⟩, finalize_eq_self ⟨hc, hd, hh, hl⟩]

/-- C6: the normalizer maps the three spec examples as stated:
normalize("MÉNAGE") = "menage", normalize("Straßenbahn") =
"strassenbahn", normalize("Łódź") = "lodz" (default mode, no
stripping flags). -/
theorem c6_normalizer_examples :
    normalizeString "MÉNAGE" false false = "menage" ∧
    normalizeString "Straßenbahn" false false = "strassenbahn" ∧
    normalizeString "Łódź" false false = "lodz" := by decide

/-- C7: `normalizeString` in its default mode (both stripping flags
false) is idempotent: for every string s,
normalize(normalize(s)) = normalize(s). -/
theorem c7_normalize_idempotent :
    ∀ s : String, normalizeString (normalizeString s false false) false false =
      normalizeString s false false := by
  intro s
  show (⟨normalizeCore (normalizeCore s.data false false) false false⟩ : String) =
    ⟨normalizeCore s.data false false⟩
  rw [canonical_fixed (normalizeCore_canonical s.data false false)]

/-- C8 (amended): for every string and flag combination the output of
`normalizeString` contains no parenthesis, bracket, or percent
character (so no parenthesized or bracketed span); and when the
leading-ordinal flag is set, the leading digit run (with trailing
separators) of the raw input is removed before normalization — but the
output may still begin with a digit run coming from later in the input,
as the counterexample shows. -/
theorem c8_amended :
    (∀ (s : String) (e n : Bool),
      (normalizeString s e n).data.all
        (fun c => !(c.toNat = 40 || c.toNat = 41 || c.toNat = 91 ||
          c.toNat = 93 || c.toNat = 37)) = true) ∧
    (∀ s : String, normalizeString s false true =
      ⟨normalizeCore (stripLeadingNum s.data) false false⟩) := by
  constructor
  · intro s e n
    rw [List.all_eq_true]
    intro c hc
    have h := (normalizeCore_canonical s.data e n).1 c hc
    rcases canon_val h with h1 | h2 | h3 <;> simp <;> omega
  · intro s
    rfl

/-- C8 (counterexample): with the leading-ordinal flag requested,
normalize("12 34") = "34", which begins with a digit run — the claim
that the output never begins with a digit run is false. -/
theorem c8_counterexample :
    normalizeString "12 34" false true = "34" ∧
    (normalizeString "12 34" false true).data.head? = some '3' ∧
    isDigitCh '3' = true := by decide

/-- C2 (amended): exact-tier candidates (bases 100/75/80/70) always have
a strictly greater base score than substring/space-blind candidates
(bases 50/30), and their totals stay greater whenever the exact
candidate receives at least the same bonuses; the only base scores the
matcher produces are 100, 85, 80, 75, 70, 50 and 30, so with equal
bonuses no substring candidate can reach an exact tier.  (As the
counterexample shows, a substring candidate receiving larger bonuses can
overtake the lowest exact tier, so the claim's unconditional form is
false.) -/
theorem c2_amended :
    (∀ (title artist name : String) (b : Nat),
      baseScore title artist name = some b →
      b = 100 ∨ b = 85 ∨ b = 80 ∨ b = 75 ∨ b = 70 ∨ b = 50 ∨ b = 30) ∧
    (∀ (title artist album name1 name2 ext1 ext2 dir1 dir2 : String)
        (b1 b2 : Nat),
      baseScore title artist name1 = some b1 → 70 ≤ b1 →
      baseScore title artist name2 = some b2 → b2 ≤ 50 →
      bonusScore album dir2 ext2 ≤ bonusScore album dir1 ext1 →
      b2 + bonusScore album dir2 ext2 < b1 + bonusScore album dir1 ext1) := by
  constructor
  · intro t a n b h
    simp only [baseScore] at h
    split_ifs at h <;>
      first
      | (injection h with hb; omega)
      | exact Option.noConfusion h
  · intro t a al n1 n2 e1 e2 d1 d2 b1 b2 h1 h70 h2 h50 hb
    omega

/-- C2 (witness). -/
theorem c2_amended_witness :
    (70 = 100 ∨ 70 = 85 ∨ 70 = 80 ∨ 70 = 75 ∨ 70 = 70 ∨ 70 = 50 ∨
      70 = 30) ∧
    50 + bonusScore "TheAlbum" "/music" ".mp3" <
      70 + bonusScore "TheAlbum" "/music" ".mp3" := by
  constructor
  · exact c2_amended.1 "Song (Live)" "Queen" "01. Song (Edit)" 70 (by decide)
  · exact c2_amended.2 "Song (Live)" "Queen" "TheAlbum" "01. Song (Edit)"
      "Songbird" ".mp3" ".mp3" "/music" "/music" 70 50
      (by decide) (by decide) (by decide) (by decide) (by decide)

/-- C2 (counterexample): for the descriptor (title "Song (Live)", artist
"Queen", album "TheAlbum"), candidate "01. Song (Edit)" matches an exact
tier (base 70) and totals 70 (.mp3, album not in its directory), while
candidate "Songbird" matches only by substring containment (base 50),
does not satisfy the artist-assisted rule (its key does not contain the
artist key), yet totals 75 thanks to the album (+20) and lossless (+5)
bonuses — so the substring candidate ends with the higher total. -/
theorem c2_counterexample :
    baseScore "Song (Live)" "Queen" "01. Song (Edit)" = some 70 ∧
    baseScore "Song (Live)" "Queen" "Songbird" = some 50 ∧
    fileScore "Song (Live)" "Queen" "TheAlbum" "01. Song (Edit)" ".mp3"
      "/music" = some 70 ∧
    fileScore "Song (Live)" "Queen" "TheAlbum" "Songbird" ".flac"
      "/music/TheAlbum" = some 75 ∧
    strIncludes (normalizeString "Songbird" false false)
      (normalizeString "Queen" false false) = false ∧
    70 < 75 := by decide

/-- C3 (amended): the substring-containment rule fires only when the
qualifier-stripped title key has length at least 4, and it always awards
the base score 50 — never 45 or 40 — whichever stripped candidate
variant (qualifier-stripped, ordinal-stripped, or both-stripped)
contained the title key. -/
theorem c3_amended :
    ∀ (title artist name : String) (b : Nat),
      baseScore title artist name = some b →
      (b ≠ 45 ∧ b ≠ 40) ∧
      (b = 50 →
        4 ≤ (normalizeString title true false).length ∧
        (strIncludes (normalizeString name true false)
            (normalizeString title true false) = true ∨
          strIncludes (normalizeString name false true)
            (normalizeString title true false) = true ∨
          strIncludes (normalizeString name true true)
            (normalizeString title true false) = true)) := by
  intro t a n b h
  simp only [baseScore] at h
  split_ifs at h with h1 h2 h3 h4 h5 h6 h7
  all_goals
    first
    | exact Option.noConfusion h
    | (injection h with hb; subst hb
       first
       | exact ⟨⟨by decide, by decide⟩, fun _ => h5⟩
       | exact ⟨⟨by decide, by decide⟩, fun hc => absurd hc (by decide)⟩)

/-- C3 (witness). -/
theorem c3_amended_witness :
    ((50 : Nat) ≠ 45 ∧ (50 : Nat) ≠ 40) ∧
    ((50 : Nat) = 50 →
      4 ≤ (normalizeString "Song" true false).length ∧
      (strIncludes (normalizeString "9 (song) x" true false)
          (normalizeString "Song" true false) = true ∨
        strIncludes (normalizeString "9 (song) x" false true)
          (normalizeString "Song" true false) = true ∨
        strIncludes (normalizeString "9 (song) x" true true)
          (normalizeString "Song" true false) = true)) :=
  c3_amended "Song" "" "9 (song) x" 50 (by decide)

/-- C3 (counterexample): for title "Song" and candidate "9 (song) x",
only the ordinal-stripped variant contains the title key (the
qualifier-stripped variant does not), yet the awarded base score is 50 —
not the 45 the claim assigns to an ordinal-stripped-variant match. -/
theorem c3_counterexample :
    baseScore "Song" "" "9 (song) x" = some 50 ∧
    strIncludes (normalizeString "9 (song) x" true false)
      (normalizeString "Song" true false) = false ∧
    strIncludes (normalizeString "9 (song) x" false true)
      (normalizeString "Song" true false) = true ∧
    (50 : Nat) ≠ 45 := by decide

theorem flatMap_eq_nil_on {α β : Type} {l : List α} {f : α → List β}
    (h : ∀ x ∈ l, f x = []) : l.flatMap f = [] := by
  induction l with
  | nil => rfl
  | cons x r ih =>
    rw [List.flatMap_cons, h x (List.mem_cons_self x r),
      ih (fun y hy => h y (List.mem_cons_of_mem x hy))]
    rfl

theorem flatMap_congr_on {α β : Type} {l : List α} {f g : α → List β}
    (h : ∀ x ∈ l, f x = g x) : l.flatMap f = l.flatMap g := by
  induction l with
  | nil => rfl
  | cons x r ih =>
    rw [List.flatMap_cons, List.flatMap_cons, h x (List.mem_cons_self x r),
      ih (fun y hy => h y (List.mem_cons_of_mem x hy))]

theorem flatMap_map_on {α β γ : Type} {l : List α} (g : α → β) (f : β → List γ) :
    (l.map g).flatMap f = l.flatMap (fun x => f (g x)) := by
  induction l with
  | nil => rfl
  | cons x r ih => rw [List.map_cons, List.flatMap_cons, List.flatMap_cons, ih]

theorem filter_map_prune {l : List (String × Dir)} (k : Nat) :
    (l.map (fun nd => (nd.1, Dir.prune k nd.2))).filter
        (fun nd => !(denyDir nd.1)) =
      (l.filter (fun nd => !(denyDir nd.1))).map
        (fun nd => (nd.1, Dir.prune k nd.2)) := by
  induction l with
  | nil => rfl
  | cons x r ih =>
    rw [List.map_cons, List.filter_cons, List.filter_cons]
    by_cases hp : (!(denyDir x.1)) = true
    · simp only [hp, if_true, List.map_cons, ih]
    · simp only [Bool.not_eq_true] at hp
      simp only [hp, Bool.false_eq_true, if_false]
      exact ih

theorem searchGo_prune (t a alb : String) (exts : List String) :
    ∀ (f : Nat) (d : Dir) (dirPath : String),
      searchGo t a alb exts (f + 1) d dirPath =
        searchGo t a alb exts (f + 1) (Dir.prune f d) dirPath := by
  intro f
  induction f with
  | zero =>
    intro d dirPath
    cases d with
    | node files subdirs =>
      simp only [searchGo, Dir.prune, List.filter_nil, List.flatMap_nil]
      congr 1
      exact flatMap_eq_nil_on (fun x _ => rfl)
  | succ f ih =>
    intro d dirPath
    cases d with
    | node files subdirs =>
      simp only [searchGo, Dir.prune]
      congr 1
      rw [filter_map_prune, flatMap_map_on]
      exact flatMap_congr_on (fun nd _ => ih nd.2 (joinPath dirPath nd.1))

/-- C9: the recursive folder scan is depth-bounded by 5: a scan started
at depth 0 gives the same matches on the tree truncated 5 subdirectory
levels down (so files in deeper directories are never descended into or
scored), and a call at depth 6 — the first depth the source rejects —
returns nothing for every tree.  (Termination on every finite tree is
inherent: `searchGo` is a total structurally recursive function.) -/
theorem c9_depth_bound :
    (∀ (title artist album : String) (exts : List String) (d : Dir)
        (dirPath : String),
      searchRecursiveAll title artist album exts d dirPath 0 =
        searchRecursiveAll title artist album exts (Dir.prune 5 d) dirPath 0) ∧
    (∀ (title artist album : String) (exts : List String) (d : Dir)
        (dirPath : String),
      searchRecursiveAll title artist album exts d dirPath 6 = []) := by
  constructor
  · intro t a alb exts d dirPath
    exact searchGo_prune t a alb exts 5 d dirPath
  · intro t a alb exts d dirPath
    rfl

/-- C4: after invalidation — an explicit `clearCaches` or a detected
mtime mismatch — the next `getSpotifyLocalFilePaths` call re-scans the
index files of the environment rather than returning the previously
cached collection; while the cache is populated and the mtime is
unchanged, the call returns the cached collection unchanged (so the
environment's buffers are not consulted), and a repeated call returns
the same collection again. -/
theorem c4_cache_invalidation :
    ∀ (env : BnkEnv) (st : CacheSt) (c : List String),
      ((getSpotifyLocalFilePaths env (clearCaches st)).1 = scanOf env) ∧
      (env.mtime ≠ st.lastMtime →
        (getSpotifyLocalFilePaths env st).1 = scanOf env) ∧
      (st.cache = some c → env.mtime = st.lastMtime →
        getSpotifyLocalFilePaths env st = (c, st)) ∧
      (getSpotifyLocalFilePaths env (getSpotifyLocalFilePaths env st).2 =
        ((getSpotifyLocalFilePaths env st).1,
          (getSpotifyLocalFilePaths env st).2)) := by
  intro env st c
  refine ⟨?_, ?_, ?_, ?_⟩
  · by_cases h : env.mtime ≠ st.lastMtime <;>
      simp [getSpotifyLocalFilePaths, clearCaches, h]
  · intro h
    simp [getSpotifyLocalFilePaths, h]
  · intro hc hm
    have h : ¬env.mtime ≠ st.lastMtime := fun hne => hne hm
    simp [getSpotifyLocalFilePaths, h, hc]
  · rcases st with ⟨cache, last⟩
    by_cases h : env.mtime ≠ last
    · cases cache <;>
        simp [getSpotifyLocalFilePaths, h]
    · cases cache <;>
        simp [getSpotifyLocalFilePaths, h]

/-- C4 (witness). -/
theorem c4_cache_invalidation_witness :
    ((getSpotifyLocalFilePaths ⟨5, [], fun _ => true⟩
        ⟨some ["stale"], 3⟩).1 = scanOf ⟨5, [], fun _ => true⟩) ∧
    (getSpotifyLocalFilePaths ⟨3, [], fun _ => true⟩ ⟨some ["cached"], 3⟩ =
      (["cached"], ⟨some ["cached"], 3⟩)) := by
  constructor
  · exact (c4_cache_invalidation ⟨5, [], fun _ => true⟩
      ⟨some ["stale"], 3⟩ ["stale"]).2.1 (by decide)
  · exact (c4_cache_invalidation ⟨3, [], fun _ => true⟩
      ⟨some ["cached"], 3⟩ ["cached"]).2.2.1 rfl rfl

theorem extractGo_inv (ex : String → Bool) (buf : List Char) :
    ∀ (fuel i : Nat) (acc : List String), acc.Nodup → acc.all ex = true →
      (extractGo ex buf fuel i acc).Nodup ∧
        (extractGo ex buf fuel i acc).all ex = true := by
  intro fuel
  induction fuel with
  | zero => intro i acc h1 h2; exact ⟨h1, h2⟩
  | succ fuel ih =>
    intro i acc h1 h2
    rw [extractGo]
    by_cases hb : i < buf.length - 20
    · simp only [hb, if_true]
      cases hidx : indexOfFrom buf usersPattern i with
      | none => simp only [hidx]; exact ⟨h1, h2⟩
      | some idx =>
        simp only [hidx]
        cases hpe : findPathEnd buf idx with
        | none => simp only [hpe]; exact ih _ _ h1 h2
        | some pend =>
          simp only [hpe]
          by_cases hadd : (ex ⟨(buf.drop idx).take (pend - idx)⟩ &&
              !(acc.contains ⟨(buf.drop idx).take (pend - idx)⟩)) = true
          · rw [if_pos hadd]
            obtain ⟨hex, hmem⟩ := Bool.and_eq_true_iff.mp hadd
            apply ih
            · rw [List.nodup_append]
              refine ⟨h1, List.nodup_singleton _, ?_⟩
              intro x hx hx1
              rcases List.mem_singleton.mp hx1 with rfl
              rw [Bool.not_eq_true'] at hmem
              have h2 := List.elem_eq_true_of_mem hx
              simp only [List.contains] at hmem
              rw [h2] at hmem
              cases hmem
            · rw [List.all_append]
              simp only [List.all_cons, List.all_nil, Bool.and_true]
              exact Bool.and_eq_true_iff.mpr ⟨h2, hex⟩
          · rw [if_neg hadd]
            exact ih _ _ h1 h2
    · simp only [hb, if_false]
      exact ⟨h1, h2⟩

/-- C10: the collection produced by the binary-index scan contains no
duplicate paths, every path in it passed the on-disk existence check
used at the moment of extraction, and a `getSpotifyLocalFilePaths` call
with an empty cache returns exactly that scan of its environment. -/
theorem c10_scan_nodup_exists :
    ∀ (ex : String → Bool) (bufs : List (List Char)),
      (scanSpotifyBnk ex bufs).Nodup ∧
      (scanSpotifyBnk ex bufs).all ex = true ∧
      (∀ (env : BnkEnv) (st : CacheSt), st.cache = none →
        (getSpotifyLocalFilePaths env st).1 = scanOf env) := by
  have aux : ∀ (ex : String → Bool) (bufs : List (List Char))
      (acc : List String), acc.Nodup → acc.all ex = true →
      (bufs.foldl (fun a buf => extractFromBuffer ex buf a) acc).Nodup ∧
        (bufs.foldl (fun a buf => extractFromBuffer ex buf a) acc).all ex = true := by
    intro ex bufs
    induction bufs with
    | nil => intro acc h1 h2; exact ⟨h1, h2⟩
    | cons b r ih =>
      intro acc h1 h2
      rw [List.foldl_cons]
      have := extractGo_inv ex b (b.length + 1) 0 acc h1 h2
      exact ih _ this.1 this.2
  intro ex bufs
  refine ⟨(aux ex bufs [] List.nodup_nil rfl).1,
    (aux ex bufs [] List.nodup_nil rfl).2, ?_⟩
  intro env st hc
  by_cases h : env.mtime ≠ st.lastMtime <;>
    simp [getSpotifyLocalFilePaths, h, hc]

/-- C10 (witness). -/
theorem c10_witness :
    (getSpotifyLocalFilePaths ⟨0, [], fun _ => false⟩ ⟨none, 0⟩).1 =
      scanOf ⟨0, [], fun _ => false⟩ :=
  (c10_scan_nodup_exists (fun _ => false) []).2.2
    ⟨0, [], fun _ => false⟩ ⟨none, 0⟩ rfl

/-- C5 (amended): `parseLocalTrackInfo` returns none for every locator
lacking the local-track prefix; with the prefix, it returns none unless
at least three colon-separated segments are separable; and when the
first three segments all form-decode (`+` to space, then
percent-decoding) it returns the descriptor built from them (fields may
be empty).  When a segment's percent-encoding is malformed the call
raises a URIError instead of returning, as the counterexample shows —
so the unconditional "returns the descriptor" of the claim is false. -/
theorem c5_amended :
    ∀ trackId : String,
      (("spotify:local:".data.isPrefixOf trackId.data) = false →
        parseLocalTrackInfo trackId = .ok none) ∧
      (("spotify:local:".data.isPrefixOf trackId.data) = true →
        (splitOnColon (trackId.data.drop 14)).length < 3 →
        parseLocalTrackInfo trackId = .ok none) ∧
      (∀ (p0 p1 p2 : String) (rest : List String) (a al t : String),
        ("spotify:local:".data.isPrefixOf trackId.data) = true →
        splitOnColon (trackId.data.drop 14) = p0 :: p1 :: p2 :: rest →
        formDecode p0 = some a → formDecode p1 = some al →
        formDecode p2 = some t →
        parseLocalTrackInfo trackId = .ok (some ⟨a, al, t⟩)) := by
  intro tid
  refine ⟨?_, ?_, ?_⟩
  · intro h
    unfold parseLocalTrackInfo
    rw [if_neg (by simp [h])]
  · intro h hlen
    unfold parseLocalTrackInfo
    rw [if_pos (by simp [h])]
    cases hs : splitOnColon (tid.data.drop 14) with
    | nil => rfl
    | cons p0 r0 =>
      cases r0 with
      | nil => rfl
      | cons p1 r1 =>
        cases r1 with
        | nil => rfl
        | cons p2 r2 =>
          rw [hs] at hlen
          simp at hlen
          omega
  · intro p0 p1 p2 rest a al t h hsplit hd0 hd1 hd2
    unfold parseLocalTrackInfo
    rw [if_pos (by simp [h])]
    simp only [hsplit, hd0, hd1, hd2]

/-- C5 (witness). -/
theorem c5_amended_witness :
    parseLocalTrackInfo "spotify:track:abc" = .ok none ∧
    parseLocalTrackInfo "spotify:local:ab" = .ok none ∧
    parseLocalTrackInfo "spotify:local:Test+Artist:Test+Album:My+Song:180" =
      .ok (some ⟨"Test Artist", "Test Album", "My Song"⟩) := by
  refine ⟨?_, ?_, ?_⟩
  · exact (c5_amended "spotify:track:abc").1 (by decide)
  · exact (c5_amended "spotify:local:ab").2.1 (by decide) (by decide)
  · exact (c5_amended "spotify:local:Test+Artist:Test+Album:My+Song:180").2.2
      "Test+Artist" "Test+Album" "My+Song" ["180"]
      "Test Artist" "Test Album" "My Song"
      (by decide) (by decide) (by decide) (by decide) (by decide)

/-- C5 (counterexample): the field "%zz" has a malformed percent-escape,
so `decodeURIComponent` raises — the parser neither fails to none nor
returns a descriptor. -/
theorem c5_counterexample :
    parseLocalTrackInfo "spotify:local:%zz:a:b" = .error () := by decide

/-- C1 (amended): resolution never throws except when a field of a
prefixed locator fails percent-decoding (a URIError propagates, as the
counterexample shows).  A locator without the local-track prefix yields
the no-descriptor result, and whenever the locator parses — including
every well-formed locator — the result is an `ok` value: a file path or
the explicit not-found `none`. -/
theorem c1_amended :
    ∀ (env : ResolveEnv) (trackId : String),
      (("spotify:local:".data.isPrefixOf trackId.data) = false →
        findLocalFile env trackId = .ok none) ∧
      (∀ info : Option TrackInfo, parseLocalTrackInfo trackId = .ok info →
        ∃ r : Option String, findLocalFile env trackId = .ok r) := by
  intro env tid
  constructor
  · intro h
    have hp : parseLocalTrackInfo tid = .ok none := by
      unfold parseLocalTrackInfo
      rw [if_neg (by simp [h])]
    unfold findLocalFile
    rw [hp]
  · intro info hp
    cases info with
    | none =>
      refine ⟨none, ?_⟩
      unfold findLocalFile
      simp only [hp]
    | some i =>
      cases hdb : findFileFromSpotifyDb env.dbPaths i.title i.artist i.album with
      | some p =>
        refine ⟨some p, ?_⟩
        unfold findLocalFile
        simp only [hp, hdb]
      | none =>
        refine ⟨bestMatch (env.folders.flatMap (fun fd =>
          searchRecursiveAll i.title i.artist i.album
            searchExtensions fd.2 fd.1 0)), ?_⟩
        unfold findLocalFile
        simp only [hp, hdb]

/-- C1 (witness). -/
theorem c1_amended_witness :
    findLocalFile ⟨[], []⟩ "spotify:track:abc123" = .ok none ∧
    (∃ r : Option String,
      findLocalFile ⟨[], []⟩ "spotify:local:a:b:c:1" = .ok r) := by
  constructor
  · exact (c1_amended ⟨[], []⟩ "spotify:track:abc123").1 (by decide)
  · exact (c1_amended ⟨[], []⟩ "spotify:local:a:b:c:1").2
      (some ⟨"a", "b", "c"⟩) (by decide)

/-- C1 (counterexample): a prefixed locator whose artist field "%zz"
fails percent-decoding makes `findLocalFile` raise (URIError from
`decodeURIComponent`) instead of returning the not-found result. -/
theorem c1_counterexample :
    findLocalFile ⟨[], []⟩ "spotify:local:%zz:a:b:1" = .error () := by decide

end TiniPresence
